import Mathlib

/-!
Shallow embedding of `src/tools/fetch_emblems.py` (flag-maker), a batch
script that looks up national-emblem SVG files, downloads them with
retries, extracts their inner markup, and merges the results into a JSON
output list keyed by identifier.  Definitions mirror the Python source;
theorems settle the specification claims about it.
-/

namespace FetchEmblems

/-- JSON values, as produced by Python `json.load`.  Numbers are modelled
as integers (no claim depends on fractional values).  Arrays and objects
are encoded as first-order cons-spines (`arrCons`/`objCons`) so that
equality of values, which Python dict keys rely on, is decidable;
object fields appear in textual order. -/
inductive JValue : Type where
  | null : JValue
  | bool : Bool → JValue
  | num : Int → JValue
  | str : String → JValue
  | arrNil : JValue
  | arrCons : JValue → JValue → JValue
  | objNil : JValue
  | objCons : String → JValue → JValue → JValue
deriving DecidableEq, Repr

/-- Python `isinstance(s, dict)`. -/
def isObj : JValue → Bool
  | .objNil => true
  | .objCons _ _ _ => true
  | _ => false

/-- Python dict lookup on a parsed JSON object: when the source text had
duplicate keys, `json.load` keeps the last occurrence, so lookup is
last-wins.  Walks the `objCons` spine. -/
def jLookup : JValue → String → Option JValue
  | .objCons k v rest, key =>
    match jLookup rest key with
    | some w => some w
    | none => if k = key then some v else none
  | _, _ => none

/-- The guard and access on line 250 of the source:
`isinstance(s, dict) and "id" in s`, and then `s["id"]`.  Returns the
value of the `"id"` key when the entry is a JSON object carrying one. -/
def entryId (s : JValue) : Option JValue :=
  if isObj s then jLookup s "id" else none

/-- Python `dict` assignment `d[k] = v` on a dict represented as an
association list in insertion order: an existing key keeps its position
and gets the new value; a fresh key is appended at the end. -/
def dictInsert (d : List (JValue × JValue)) (k v : JValue) :
    List (JValue × JValue) :=
  if k ∈ d.map Prod.fst then
    d.map (fun p => if p.1 = k then (k, v) else p)
  else
    d ++ [(k, v)]

/-- Line 250 of the source:
`existing_by_id = {s["id"]: s for s in existing if isinstance(s, dict) and "id" in s}`. -/
def buildById (existing : List JValue) : List (JValue × JValue) :=
  existing.foldl
    (fun d s =>
      match entryId s with
      | some k => dictInsert d k s
      | none => d)
    []

/-- An output record as built on lines 283–291 of the source. -/
structure Record : Type where
  id : String
  name : String
  category : String
  viewBox : String
  svg : String
  source : String
  license : String
deriving DecidableEq, Repr

/-- The JSON object a record becomes in the output list, fields in the
order the source writes them. -/
def Record.toJ (r : Record) : JValue :=
  .objCons "id" (.str r.id) (.objCons "name" (.str r.name)
    (.objCons "category" (.str r.category)
      (.objCons "viewBox" (.str r.viewBox)
        (.objCons "svg" (.str r.svg)
          (.objCons "source" (.str r.source)
            (.objCons "license" (.str r.license) .objNil))))))

/-- Lines 295–298 of the source: overlay the produced records onto
`existing_by_id` and take the dict's values, in insertion order. -/
def mergeRun (existing : List JValue) (results : List Record) :
    List JValue :=
  let d := results.foldl
    (fun d r => dictInsert d (.str r.id) r.toJ) (buildById existing)
  d.map Prod.snd

/-- Lines 242–248 of the source: the existing output file is read inside
`try`/`except Exception`; a parse failure leaves `existing = []`.  `none`
models a file that failed to parse (or that is absent). -/
def loadExisting : Option (List JValue) → List JValue
  | some xs => xs
  | none => []

/-- Keys of the association-list dict, in insertion order. -/
def keys (d : List (JValue × JValue)) : List JValue := d.map Prod.fst

/-- The well-formedness the merge maintains: keys are pairwise distinct
and every stored value is an object whose `"id"` field is its key. -/
def goodDict (d : List (JValue × JValue)) : Prop :=
  (keys d).Nodup ∧ ∀ p ∈ d, entryId p.2 = some p.1

/-- XML element tree as produced by `lxml` parsing: a possibly
namespace-qualified tag, attributes in document order, leading text,
child elements, and trailing (tail) text.  Comment and
processing-instruction nodes are not modelled. -/
inductive XElem : Type where
  | mk : String → List (String × String) → String → List XElem → String → XElem
deriving Repr

def XElem.tag : XElem → String
  | .mk t _ _ _ _ => t

def XElem.attrs : XElem → List (String × String)
  | .mk _ a _ _ _ => a

def XElem.text : XElem → String
  | .mk _ _ tx _ _ => tx

def XElem.children : XElem → List XElem
  | .mk _ _ _ c _ => c

def XElem.tail : XElem → String
  | .mk _ _ _ _ tl => tl

/-- Attribute serialization used by `etree.tostring`: a space-separated
run of `key="value"` items (character escaping is not modelled; no claim
depends on it). -/
def serializeAttrs : List (String × String) → String
  | [] => ""
  | (k, v) :: rest => " " ++ k ++ "=\x22" ++ v ++ "\x22" ++ serializeAttrs rest

mutual
/-- Serialization `etree.tostring(child, encoding="unicode")`: standard XML
serialization of an element, self-closing when it has no text and no
children, followed by its tail text. -/
def serialize : XElem → String
  | .mk tag attrs text children tail =>
    (if text = "" ∧ children.isEmpty then
      "<" ++ tag ++ serializeAttrs attrs ++ "/>"
    else
      "<" ++ tag ++ serializeAttrs attrs ++ ">" ++ text ++
        serializeList children ++ "</" ++ tag ++ ">") ++ tail

/-- Concatenation of the serializations of a list of sibling elements,
as built by the `parts` loop on lines 226–229 of the source. -/
def serializeList : List XElem → String
  | [] => ""
  | e :: es => serialize e ++ serializeList es
end

/-- Line 210 of the source, the helper `local`: the local part of a
namespace-qualified tag, i.e. everything after the last closing brace.  For a single-character
separator, Python's `split(...)[-1]` is the suffix after the last
occurrence (the whole string when the separator does not occur). -/
def localName (tag : String) : String :=
  String.mk ((tag.data.reverse.takeWhile fun c => c != '\x7d').reverse)

/-- Python `str.strip()`: drop leading and trailing whitespace. -/
def pyStrip (s : String) : String :=
  String.mk
    (((s.data.dropWhile Char.isWhitespace).reverse.dropWhile
      Char.isWhitespace).reverse)

/-- Lookup `root.get(name)` on an lxml element: the value of the named
attribute, or `None` when absent (first occurrence wins). -/
def attrGet (e : XElem) (name : String) : Option String :=
  (e.attrs.find? fun p => p.1 == name).map Prod.snd

/-- Python truthiness of an `Optional[str]`: `None` and the empty string
are falsy. -/
def truthy : Option String → Bool
  | none => false
  | some s => s != ""

/-- Lines 219–220 of the source: `re.sub(r"[^0-9.\-]", "", w)` — keep
only digits, `.` and `-`. -/
def stripNonNumeric (s : String) : String :=
  String.mk (s.data.filter fun c => ('0' ≤ c && c ≤ '9') || c == '.' || c == '-')

/-- The dictionary `extract_inner_svg` returns on success. -/
structure ExtractResult : Type where
  viewBox : String
  inner : String
deriving DecidableEq, Repr

/-- Lines 214–224 of the source: take the `viewBox` attribute when it is
present and non-empty; otherwise synthesize `"0 0 W H"` from the `width`
and `height` attributes (both required truthy), each stripped of
non-numeric characters; otherwise give up. -/
def computeViewBox (root : XElem) : Option String :=
  let viewBox := attrGet root "viewBox"
  if truthy viewBox then viewBox
  else
    let w := attrGet root "width"
    let h := attrGet root "height"
    if truthy w && truthy h then
      some ("0 0 " ++ stripNonNumeric (w.getD "") ++ " "
        ++ stripNonNumeric (h.getD ""))
    else none

/-- Lines 203–235 of the source, on an already-parsed tree: `None` unless
the root's local tag is `svg`, a bounding box is derivable, and the
concatenated serialized children are non-empty after stripping. -/
def extract_inner_svg (root : XElem) : Option ExtractResult :=
  if localName root.tag = "svg" then
    match computeViewBox root with
    | none => none
    | some vb =>
      let inner := pyStrip (serializeList root.children)
      if inner = "" then none else some ⟨vb, inner⟩
  else none

/-- One HTTP attempt's outcome as seen by `download_svg`: a response
with a status code and body, or a `requests.RequestException`. -/
inductive Resp : Type where
  | http : Nat → String → Resp
  | netErr : Resp
deriving DecidableEq, Repr

/-- Line 185 of the source: the recoverable statuses. -/
def retryable (code : Nat) : Bool :=
  code == 429 || code == 500 || code == 502 || code == 503 || code == 504

/-- Observable outcome of `download_svg`: how many GETs were performed,
the backoff sleeps taken (the sleep after attempt `i` lasts `i` seconds,
recorded as `i`), the bytes written to `dest` if any, and the returned
boolean. -/
structure DlTrace : Type where
  attempts : Nat
  waits : List Nat
  written : Option String
  success : Bool
deriving DecidableEq, Repr

/-- The loop `for attempt in range(1, 5)` of `download_svg`
(lines 176–201), driven by the environment's response to each attempt. -/
def dlGo (resp : Nat → Resp) : Nat → Nat → List Nat → DlTrace
  | 0, attempt, waits => ⟨attempt - 1, waits, none, false⟩
  | fuel + 1, attempt, waits =>
    match resp attempt with
    | .http code body =>
      if code = 200 then ⟨attempt, waits, some body, true⟩
      else if retryable code then
        dlGo resp fuel (attempt + 1) (waits ++ [attempt])
      else if code = 403 then ⟨attempt, waits, none, false⟩
      else ⟨attempt, waits, none, false⟩
    | .netErr => dlGo resp fuel (attempt + 1) (waits ++ [attempt])

/-- Entry point `download_svg(url, dest)`: up to 4 attempts starting at attempt 1. -/
def download_svg (resp : Nat → Resp) : DlTrace :=
  dlGo resp 4 1 []

/-- The character class of line 85 of the source:
`[A-Za-z0-9_.\-]`. -/
def okChar (c : Char) : Bool :=
  ('A' ≤ c && c ≤ 'Z') || ('a' ≤ c && c ≤ 'z') || ('0' ≤ c && c ≤ '9')
    || c == '_' || c == '.' || c == '-'

/-- Line 85 of the source: `re.sub(r"[^A-Za-z0-9_.\-]", "_", name)`. -/
def sanitize_filename (name : String) : String :=
  String.mk (name.data.map fun c => if okChar c then c else '_')

/-- Python `str.lower`, restricted to ASCII case mapping.  Every
uppercase character occurring in `UN_COUNTRIES` is ASCII, and on such
strings Python's Unicode lowercasing agrees with the ASCII one. -/
def pyLower (s : String) : String :=
  String.mk (s.data.map fun c => if 'A' ≤ c ∧ c ≤ 'Z' then Char.toLower c else c)

/-- Python `str.replace` for a single-character needle: every occurrence
of `old` is replaced by `new`. -/
def replaceChar (s : String) (old : Char) (new : String) : String :=
  String.join (s.data.map fun c => if c = old then new else String.mk [c])

/-- Lines 281–282 of the source:
`safe_country = country.lower().replace(" ", "_").replace("'", "").replace("-", "_")`
and `sym_id = f"{safe_country}_emblem"`. -/
def countryId (country : String) : String :=
  replaceChar (replaceChar (replaceChar (pyLower country) ' ' "_") '\x27' "")
    '-' "_" ++ "_emblem"

/-- Lines 24–45 of the source: the static country list. -/
def UN_COUNTRIES : List String := [
  "Afghanistan", "Albania", "Algeria", "Andorra", "Angola",
  "Antigua and Barbuda", "Argentina", "Armenia", "Australia", "Austria",
  "Azerbaijan", "Bahamas", "Bahrain", "Bangladesh", "Barbados",
  "Belarus", "Belgium", "Belize", "Benin", "Bhutan",
  "Bolivia", "Bosnia and Herzegovina", "Botswana", "Brazil", "Brunei",
  "Bulgaria", "Burkina Faso", "Burundi", "Cabo Verde", "Cambodia",
  "Cameroon", "Canada", "Central African Republic", "Chad", "Chile",
  "China", "Colombia", "Comoros", "Congo", "Costa Rica",
  "Côte d\x27Ivoire", "Croatia", "Cuba", "Cyprus", "Czechia",
  "Democratic Republic of the Congo", "Denmark", "Djibouti", "Dominica",
  "Dominican Republic",
  "Ecuador", "Egypt", "El Salvador", "Equatorial Guinea", "Eritrea",
  "Estonia", "Eswatini", "Ethiopia", "Fiji", "Finland",
  "France", "Gabon", "Gambia", "Georgia", "Germany",
  "Ghana", "Greece", "Grenada", "Guatemala", "Guinea",
  "Guinea-Bissau", "Guyana", "Haiti", "Honduras", "Hungary",
  "Iceland", "India", "Indonesia", "Iran", "Iraq",
  "Ireland", "Israel", "Italy", "Jamaica", "Japan",
  "Jordan", "Kazakhstan", "Kenya", "Kiribati", "Kuwait",
  "Kyrgyzstan", "Laos", "Latvia", "Lebanon", "Lesotho",
  "Liberia", "Libya", "Liechtenstein", "Lithuania", "Luxembourg",
  "Madagascar", "Malawi", "Malaysia", "Maldives", "Mali",
  "Malta", "Marshall Islands", "Mauritania", "Mauritius", "Mexico",
  "Micronesia", "Moldova", "Monaco", "Mongolia", "Montenegro",
  "Morocco", "Mozambique", "Myanmar", "Namibia", "Nauru",
  "Nepal", "Netherlands", "New Zealand", "Nicaragua", "Niger",
  "Nigeria", "North Korea", "North Macedonia", "Norway", "Oman",
  "Pakistan", "Palau", "Panama", "Papua New Guinea", "Paraguay",
  "Peru", "Philippines", "Poland", "Portugal", "Qatar",
  "Romania", "Russia", "Rwanda", "Saint Kitts and Nevis", "Saint Lucia",
  "Saint Vincent and the Grenadines", "Samoa", "San Marino",
  "Sao Tome and Principe", "Saudi Arabia",
  "Senegal", "Serbia", "Seychelles", "Sierra Leone", "Singapore",
  "Slovakia", "Slovenia", "Solomon Islands", "Somalia", "South Africa",
  "South Korea", "South Sudan", "Spain", "Sri Lanka", "Sudan",
  "Suriname", "Sweden", "Switzerland", "Syria", "Tajikistan",
  "Tanzania", "Thailand", "Timor-Leste", "Togo", "Tonga",
  "Trinidad and Tobago", "Tunisia", "Turkey", "Turkmenistan", "Tuvalu",
  "Uganda", "Ukraine", "United Arab Emirates", "United Kingdom",
  "United States", "Uruguay", "Uzbekistan", "Vanuatu", "Venezuela",
  "Vietnam",
  "Yemen", "Zambia", "Zimbabwe"]

/-- Lines 283–291 of the source: the output record for a country, given
the extracted viewBox and inner markup, the page URL from the lookup (or
`None`), and the sanitized file title. -/
def mkItem (country viewBox inner : String) (pageurl : Option String)
    (safe : String) : Record :=
  { id := countryId country
  , name := country ++ " – National emblem"
  , category := "National Emblems"
  , viewBox := viewBox
  , svg := inner
  , source :=
      match pageurl with
      | some p =>
        if p = "" then "https://commons.wikimedia.org/wiki/" ++ safe else p
      | none => "https://commons.wikimedia.org/wiki/" ++ safe
  , license := "Check file page on Wikimedia Commons" }

/-- A successful lookup as returned by `commons_search_svg`
(`{'title', 'pageurl', 'url'}`; `pageurl` may be `None`). -/
structure Hit : Type where
  title : String
  pageurl : Option String
  url : String
deriving DecidableEq, Repr

/-- Line 16 of the source. -/
def CACHE_DIR : String := "public/emblems"

/-- Line 265 of the source: `dest = os.path.join(CACHE_DIR, safe)`. -/
def destPath (safe : String) : String :=
  CACHE_DIR ++ "/" ++ safe

/-- How the loop body of `main` (lines 254–293) ends for one country. -/
inductive StepResult : Type where
  | notFound : StepResult
  | downloadFailed : StepResult
  | parseFailed : StepResult
  | ok : Record → StepResult
deriving DecidableEq, Repr

/-- Observable trace of one country's pass through the loop body:
whether `download_svg` was invoked, the outcome, and the filesystem
afterwards (paths to file contents). -/
structure StepTrace : Type where
  downloadAttempted : Bool
  result : StepResult
  fs : String → Option String

/-- Lines 275–292 of the source: parse the destination file and extract;
on success build the output record.  `parse` models `etree.parse` with
the recovering parser (returning `none` on a hopeless file, matching the
`try`/`except` around extraction). -/
def extractStage (parse : String → Option XElem) (hit : Hit)
    (country : String) (fs : String → Option String) (dlFlag : Bool) :
    StepTrace :=
  let safe := sanitize_filename hit.title
  match fs (destPath safe) with
  | none => ⟨dlFlag, .parseFailed, fs⟩
  | some content =>
    match parse content with
    | none => ⟨dlFlag, .parseFailed, fs⟩
    | some root =>
      match extract_inner_svg root with
      | none => ⟨dlFlag, .parseFailed, fs⟩
      | some p =>
        ⟨dlFlag, .ok (mkItem country p.viewBox p.inner hit.pageurl safe), fs⟩

/-- Lines 254–293 of the source: one country's pass through the loop
body, after the lookup resolved to `hitO`.  A destination that exists
with positive size skips the network (lines 264–267); otherwise
`download_svg` runs and, on success, writes the body to `dest`. -/
def processCountry (parse : String → Option XElem) (resp : Nat → Resp)
    (hitO : Option Hit) (country : String)
    (fs : String → Option String) : StepTrace :=
  match hitO with
  | none => ⟨false, .notFound, fs⟩
  | some hit =>
    let safe := sanitize_filename hit.title
    let dest := destPath safe
    let cacheHit :=
      match fs dest with
      | some content => content != ""
      | none => false
    if cacheHit then
      extractStage parse hit country fs false
    else
      let dl := download_svg resp
      if dl.success then
        extractStage parse hit country
          (fun p => if p = dest then dl.written else fs p) true
      else ⟨true, .downloadFailed, fs⟩

/-! ### Dictionary invariants used by the merge claims -/

lemma keys_dictInsert_mem {d : List (JValue × JValue)} {k : JValue}
    (v : JValue) (h : k ∈ keys d) : keys (dictInsert d k v) = keys d := by
  unfold dictInsert
  rw [if_pos (by simpa [keys] using h)]
  unfold keys
  rw [List.map_map]
  refine List.map_congr_left ?_
  intro p _
  by_cases hp : p.1 = k <;> simp [hp]

lemma keys_dictInsert_not_mem {d : List (JValue × JValue)} {k : JValue}
    (v : JValue) (h : k ∉ keys d) :
    keys (dictInsert d k v) = keys d ++ [k] := by
  unfold dictInsert
  rw [if_neg (by simpa [keys] using h)]
  simp [keys]

lemma mem_keys_dictInsert_self (d : List (JValue × JValue)) (k v : JValue) :
    k ∈ keys (dictInsert d k v) := by
  by_cases h : k ∈ keys d
  · rw [keys_dictInsert_mem v h]; exact h
  · rw [keys_dictInsert_not_mem v h]; simp

lemma mem_keys_dictInsert_of_mem {d : List (JValue × JValue)} {k : JValue}
    (k' v : JValue) (h : k ∈ keys d) : k ∈ keys (dictInsert d k' v) := by
  by_cases h' : k' ∈ keys d
  · rw [keys_dictInsert_mem v h']; exact h
  · rw [keys_dictInsert_not_mem v h']; exact List.mem_append_left _ h

lemma goodDict_nil : goodDict [] := by constructor <;> simp [keys]

lemma goodDict_dictInsert {d : List (JValue × JValue)} {k v : JValue}
    (hd : goodDict d) (hv : entryId v = some k) :
    goodDict (dictInsert d k v) := by
  obtain ⟨hnd, hvals⟩ := hd
  by_cases h : k ∈ keys d
  · refine ⟨by rw [keys_dictInsert_mem v h]; exact hnd, ?_⟩
    intro p hp
    unfold dictInsert at hp
    rw [if_pos (by simpa [keys] using h)] at hp
    rcases List.mem_map.mp hp with ⟨q, hq, hqe⟩
    by_cases hqk : q.1 = k
    · simp only [hqk, if_pos] at hqe
      rw [← hqe]; exact hv
    · simp only [hqk, if_false] at hqe
      rw [← hqe]; exact hvals q hq
  · refine ⟨?_, ?_⟩
    · rw [keys_dictInsert_not_mem v h]
      simp only [List.nodup_append, List.nodup_cons, List.not_mem_nil,
        not_false_iff, List.nodup_nil, and_true, true_and]
      refine ⟨hnd, ?_⟩
      intro a ha hmem
      simp only [List.mem_singleton] at hmem
      rw [hmem] at ha; exact h ha
    · intro p hp
      unfold dictInsert at hp
      rw [if_neg (by simpa [keys] using h)] at hp
      rcases List.mem_append.mp hp with hp | hp
      · exact hvals p hp
      · simp only [List.mem_singleton] at hp
        rw [hp]; exact hv

lemma goodDict_buildById_go (existing : List JValue) :
    ∀ d, goodDict d →
      goodDict (existing.foldl
        (fun d s =>
          match entryId s with
          | some k => dictInsert d k s
          | none => d) d) := by
  induction existing with
  | nil => intro d hd; simpa using hd
  | cons s rest ih =>
    intro d hd
    simp only [List.foldl_cons]
    cases hs : entryId s with
    | none => simp only [hs]; exact ih d hd
    | some k => simp only [hs]; exact ih _ (goodDict_dictInsert hd hs)

lemma goodDict_buildById (existing : List JValue) :
    goodDict (buildById existing) :=
  goodDict_buildById_go existing [] goodDict_nil

lemma entryId_toJ (r : Record) : entryId r.toJ = some (.str r.id) := by
  simp [entryId, Record.toJ, jLookup, isObj]

lemma goodDict_foldResults (results : List Record) :
    ∀ d, goodDict d →
      goodDict (results.foldl
        (fun d r => dictInsert d (.str r.id) r.toJ) d) := by
  induction results with
  | nil => intro d hd; simpa using hd
  | cons r rest ih =>
    intro d hd
    simp only [List.foldl_cons]
    exact ih _ (goodDict_dictInsert hd (entryId_toJ r))

lemma pair_mem_dictInsert {d : List (JValue × JValue)} {k s : JValue}
    (k' v : JValue) (hne : k' ≠ k) (h : (k, s) ∈ d) :
    (k, s) ∈ dictInsert d k' v := by
  unfold dictInsert
  by_cases hk : k' ∈ d.map Prod.fst
  · rw [if_pos hk]
    refine List.mem_map.mpr ⟨(k, s), h, ?_⟩
    rw [if_neg]
    simp only [ne_eq]
    exact fun he => hne he.symm
  · rw [if_neg hk]
    exact List.mem_append_left _ h

lemma pair_mem_dictInsert_self (d : List (JValue × JValue))
    (k v : JValue) : (k, v) ∈ dictInsert d k v := by
  unfold dictInsert
  by_cases hk : k ∈ d.map Prod.fst
  · rw [if_pos hk]
    rcases List.mem_map.mp hk with ⟨p, hp, hpk⟩
    refine List.mem_map.mpr ⟨p, hp, ?_⟩
    rw [if_pos hpk]
  · rw [if_neg hk]
    simp

lemma pair_mem_foldResults (results : List Record) :
    ∀ d (k s : JValue), (k, s) ∈ d →
      (∀ r ∈ results, JValue.str r.id ≠ k) →
      (k, s) ∈ results.foldl
        (fun d r => dictInsert d (.str r.id) r.toJ) d := by
  induction results with
  | nil => intro d k s h _; simpa using h
  | cons r rest ih =>
    intro d k s h hne
    simp only [List.foldl_cons]
    refine ih _ k s ?_ (fun r' hr' => hne r' (List.mem_cons_of_mem r hr'))
    exact pair_mem_dictInsert _ _ (hne r (List.mem_cons_self r rest)) h

lemma pair_mem_foldExisting (l : List JValue) :
    ∀ d (k s : JValue), (k, s) ∈ d →
      (∀ t ∈ l, entryId t ≠ some k) →
      (k, s) ∈ l.foldl
        (fun d s =>
          match entryId s with
          | some k => dictInsert d k s
          | none => d) d := by
  induction l with
  | nil => intro d k s h _; simpa using h
  | cons t rest ih =>
    intro d k s h hne
    simp only [List.foldl_cons]
    cases ht : entryId t with
    | none =>
      simp only [ht]
      exact ih d k s h (fun t' h' => hne t' (List.mem_cons_of_mem t h'))
    | some k' =>
      simp only [ht]
      refine ih _ k s ?_ (fun t' h' => hne t' (List.mem_cons_of_mem t h'))
      refine pair_mem_dictInsert _ _ ?_ h
      intro he
      refine hne t (List.mem_cons_self t rest) ?_
      simp [ht, he]

lemma keys_foldExisting_subset (l : List JValue) :
    ∀ d, keys (l.foldl
        (fun d s =>
          match entryId s with
          | some k => dictInsert d k s
          | none => d) d) ⊆ keys d ++ l.filterMap entryId := by
  induction l with
  | nil => intro d; simp
  | cons t rest ih =>
    intro d
    simp only [List.foldl_cons]
    cases ht : entryId t with
    | none =>
      simp only [ht, List.filterMap_cons]
      exact ih d
    | some k' =>
      simp only [ht, List.filterMap_cons]
      intro a ha
      have ha := ih _ ha
      rcases List.mem_append.mp ha with ha | ha
      · by_cases hk : k' ∈ keys d
        · rw [keys_dictInsert_mem t hk] at ha
          exact List.mem_append_left _ ha
        · rw [keys_dictInsert_not_mem t hk] at ha
          rcases List.mem_append.mp ha with ha | ha
          · exact List.mem_append_left _ ha
          · simp only [List.mem_singleton] at ha
            subst ha; simp
      · simp only [List.mem_append, List.mem_cons]
        right; right; exact ha

lemma keys_mono_foldResults (results : List Record) :
    ∀ d (k : JValue), k ∈ keys d →
      k ∈ keys (results.foldl
        (fun d r => dictInsert d (.str r.id) r.toJ) d) := by
  induction results with
  | nil => intro d k h; simpa using h
  | cons r rest ih =>
    intro d k h
    simp only [List.foldl_cons]
    exact ih _ k (mem_keys_dictInsert_of_mem _ _ h)

lemma key_mem_foldResults (results : List Record) :
    ∀ d (r : Record), r ∈ results →
      JValue.str r.id ∈ keys (results.foldl
        (fun d r => dictInsert d (.str r.id) r.toJ) d) := by
  induction results with
  | nil => intro d r h; simp at h
  | cons t rest ih =>
    intro d r hr
    simp only [List.foldl_cons]
    rcases List.mem_cons.mp hr with hr | hr
    · subst hr
      exact keys_mono_foldResults rest _ _ (mem_keys_dictInsert_self d _ _)
    · exact ih _ r hr

lemma map_entryId_mergeRun (existing : List JValue) (results : List Record) :
    (mergeRun existing results).map entryId =
      (keys (results.foldl
        (fun d r => dictInsert d (.str r.id) r.toJ)
        (buildById existing))).map some := by
  unfold mergeRun keys
  rw [List.map_map, List.map_map]
  refine List.map_congr_left ?_
  intro p hp
  exact (goodDict_foldResults results _ (goodDict_buildById existing)).2 p hp

lemma foldResults_append (results : List Record) :
    ∀ d, (∀ r ∈ results, JValue.str r.id ∉ keys d) →
      ((results.map fun r => JValue.str r.id).Nodup) →
      results.foldl (fun d r => dictInsert d (.str r.id) r.toJ) d
        = d ++ results.map fun r => (JValue.str r.id, r.toJ) := by
  induction results with
  | nil => intro d _ _; simp
  | cons r rest ih =>
    intro d hfresh hnd
    simp only [List.foldl_cons, List.map_cons]
    have hr : JValue.str r.id ∉ keys d :=
      hfresh r (List.mem_cons_self r rest)
    rw [show dictInsert d (.str r.id) r.toJ
          = d ++ [(JValue.str r.id, r.toJ)] from by
        unfold dictInsert; rw [if_neg (by simpa [keys] using hr)]]
    simp only [List.map_cons, List.nodup_cons] at hnd
    rw [ih _ ?_ hnd.2]
    · simp
    · intro r' hr'
      simp only [keys, List.map_append, List.map_cons, List.map_nil,
        List.mem_append, List.mem_singleton, not_or]
      refine ⟨by simpa [keys] using hfresh r' (List.mem_cons_of_mem r hr'), ?_⟩
      intro he
      exact hnd.1 (List.mem_map.mpr ⟨r', hr', he⟩)

/-! ### Claim theorems about the Merger/Writer -/

/-- C1.  For every existing output list and every list of newly produced
records, the merged output list has pairwise distinct identifiers (read
off each entry by `entryId`); every produced record's identifier occurs
in it; and the produced record itself (for the last production of its
identifier) is a member of the merged output.  Together with the
uniqueness this says a re-produced identifier's entry IS the new record:
the old record is replaced, never duplicated. -/
theorem merged_ids_unique (existing : List JValue) (results : List Record) :
    ((mergeRun existing results).map entryId).Nodup
  ∧ (∀ r ∈ results,
      some (JValue.str r.id) ∈ (mergeRun existing results).map entryId)
  ∧ (∀ l1 r l2, results = l1 ++ r :: l2 →
      (∀ r' ∈ l2, r'.id ≠ r.id) →
      r.toJ ∈ mergeRun existing results) := by
  refine ⟨?_, ?_, ?_⟩
  · rw [map_entryId_mergeRun]
    exact List.Nodup.map (Option.some_injective _)
      (goodDict_foldResults results _ (goodDict_buildById existing)).1
  · intro r hr
    rw [map_entryId_mergeRun]
    exact List.mem_map_of_mem some (key_mem_foldResults results _ r hr)
  · intro l1 r l2 hdec hlast
    subst hdec
    show r.toJ ∈ ((l1 ++ r :: l2).foldl
      (fun d r => dictInsert d (.str r.id) r.toJ)
      (buildById existing)).map Prod.snd
    rw [List.foldl_append, List.foldl_cons]
    refine List.mem_map.mpr ⟨(JValue.str r.id, r.toJ), ?_, rfl⟩
    exact pair_mem_foldResults l2 _ _ _
      (pair_mem_dictInsert_self _ _ _)
      (fun r' h' he => hlast r' h' (JValue.str.inj he))

/-- Closed instance of `merged_ids_unique` at a concrete run in which the
identifier `"x"` is re-produced: the merged output has distinct
identifiers and contains the new `"x"` record. -/
theorem merged_ids_unique_witness :
    ((mergeRun [JValue.objCons "id" (.str "x")
        (.objCons "svg" (.str "OLD") .objNil)]
        [⟨"x", "n", "c", "v", "NEW", "u", "l"⟩]).map entryId).Nodup
  ∧ some (JValue.str "x") ∈
      (mergeRun [JValue.objCons "id" (.str "x")
        (.objCons "svg" (.str "OLD") .objNil)]
        [⟨"x", "n", "c", "v", "NEW", "u", "l"⟩]).map entryId
  ∧ Record.toJ ⟨"x", "n", "c", "v", "NEW", "u", "l"⟩ ∈
      mergeRun [JValue.objCons "id" (.str "x")
        (.objCons "svg" (.str "OLD") .objNil)]
        [⟨"x", "n", "c", "v", "NEW", "u", "l"⟩] := by
  refine ⟨(merged_ids_unique _ _).1, ?_, ?_⟩
  · exact (merged_ids_unique [JValue.objCons "id" (.str "x")
      (.objCons "svg" (.str "OLD") .objNil)]
      [⟨"x", "n", "c", "v", "NEW", "u", "l"⟩]).2.1
      ⟨"x", "n", "c", "v", "NEW", "u", "l"⟩ (List.mem_singleton.mpr rfl)
  · exact (merged_ids_unique [JValue.objCons "id" (.str "x")
      (.objCons "svg" (.str "OLD") .objNil)]
      [⟨"x", "n", "c", "v", "NEW", "u", "l"⟩]).2.2
      [] ⟨"x", "n", "c", "v", "NEW", "u", "l"⟩ [] rfl
      (fun r' h' => absurd h' (List.not_mem_nil r'))

/-- C2.  Provided the existing file's record identifiers are pairwise
distinct (the documented invariant of every output the script writes), an
existing record whose identifier is not produced in the current run
appears unchanged in the merged output. -/
theorem merge_preserves_untouched (existing : List JValue)
    (results : List Record) (s k : JValue)
    (hs : s ∈ existing) (hid : entryId s = some k)
    (hnd : (existing.filterMap entryId).Nodup)
    (hnew : ∀ r ∈ results, JValue.str r.id ≠ k) :
    s ∈ mergeRun existing results := by
  obtain ⟨l1, l2, rfl⟩ := List.append_of_mem hs
  rw [List.filterMap_append, List.filterMap_cons, hid] at hnd
  rw [List.nodup_append] at hnd
  obtain ⟨hnd1, hnd2, hdisj⟩ := hnd
  rw [List.nodup_cons] at hnd2
  have hkl1 : k ∉ l1.filterMap entryId := fun hk =>
    hdisj hk (List.mem_cons_self _ _)
  have hkl2 : k ∉ l2.filterMap entryId := hnd2.1
  unfold mergeRun buildById
  rw [List.foldl_append, List.foldl_cons, hid]
  set d1 := l1.foldl
    (fun d s =>
      match entryId s with
      | some k => dictInsert d k s
      | none => d) ([] : List (JValue × JValue)) with hd1
  have hk1 : k ∉ keys d1 := by
    intro hk
    have := keys_foldExisting_subset l1 [] hk
    simp only [keys, List.map_nil, List.nil_append] at this
    exact hkl1 this
  have hmem : (k, s) ∈ dictInsert d1 k s := by
    unfold dictInsert
    rw [if_neg (by simpa [keys] using hk1)]
    simp
  have hmem2 : (k, s) ∈ l2.foldl
      (fun d s =>
        match entryId s with
        | some k => dictInsert d k s
        | none => d) (dictInsert d1 k s) := by
    refine pair_mem_foldExisting l2 _ k s hmem ?_
    intro t ht he
    exact hkl2 (List.mem_filterMap.mpr ⟨t, ht, he⟩)
  have hmem3 := pair_mem_foldResults results _ k s hmem2 hnew
  exact List.mem_map.mpr ⟨(k, s), hmem3, rfl⟩

/-- Closed instance of `merge_preserves_untouched` at a concrete run. -/
theorem merge_preserves_untouched_witness :
    JValue.objCons "id" (.str "keepme") (.objCons "svg" (.str "<g/>") .objNil)
      ∈ mergeRun
        [JValue.objCons "id" (.str "keepme")
          (.objCons "svg" (.str "<g/>") .objNil)]
        [⟨"fresh", "n", "c", "v", "s", "u", "l"⟩] := by
  refine merge_preserves_untouched _ _ _ (JValue.str "keepme")
    (List.mem_singleton.mpr rfl) (by decide) (by decide) ?_
  intro r hr
  rw [List.mem_singleton] at hr
  subst hr
  decide

/-- C9.  An entry of the existing file that is not a JSON object, or that
lacks an `"id"` key, is dropped when `existing_by_id` is built and never
appears in the merged output. -/
theorem non_record_entries_dropped (existing : List JValue)
    (results : List Record) (s : JValue)
    (hid : entryId s = none) :
    s ∉ mergeRun existing results := by
  intro hmem
  unfold mergeRun at hmem
  rcases List.mem_map.mp hmem with ⟨p, hp, hps⟩
  have := (goodDict_foldResults results _ (goodDict_buildById existing)).2 p hp
  rw [hps, hid] at this
  exact Option.noConfusion this

/-- Closed instance of `non_record_entries_dropped`: a bare string entry
and an object without `"id"` both vanish from the merged output. -/
theorem non_record_entries_dropped_witness :
    JValue.str "stray" ∉ mergeRun
      [JValue.str "stray", JValue.objCons "name" (.str "x") .objNil]
      [⟨"a", "n", "c", "v", "s", "u", "l"⟩] :=
  non_record_entries_dropped _ _ _ (by decide)

/-- C8.  When the existing output file fails to parse (modelled by
`loadExisting none = []`), the merge degrades to exactly the records
produced in the current run, in order — given their identifiers are
pairwise distinct, which holds on every actual run since identifiers of
one run come from distinct countries. -/
theorem malformed_existing_treated_empty (results : List Record)
    (hnd : (results.map Record.id).Nodup) :
    mergeRun (loadExisting none) results = results.map Record.toJ := by
  have hnd' : ((results.map fun r => JValue.str r.id)).Nodup := by
    rw [show (results.map fun r => JValue.str r.id)
          = (results.map Record.id).map JValue.str from by
        rw [List.map_map]; rfl]
    exact List.Nodup.map (fun a b h => JValue.str.inj h) hnd
  unfold mergeRun loadExisting
  rw [show buildById [] = [] from rfl]
  rw [foldResults_append results [] (by simp [keys]) hnd']
  simp

/-- Closed instance of `malformed_existing_treated_empty`. -/
theorem malformed_existing_treated_empty_witness :
    mergeRun (loadExisting none)
      [⟨"a", "n", "c", "v", "s", "u", "l"⟩,
       ⟨"b", "n", "c", "v", "s", "u", "l"⟩]
      = [Record.toJ ⟨"a", "n", "c", "v", "s", "u", "l"⟩,
         Record.toJ ⟨"b", "n", "c", "v", "s", "u", "l"⟩] :=
  malformed_existing_treated_empty _ (by decide)

/-! ### Extractor lemmas -/

lemma computeViewBox_of_extract {root : XElem} {res : ExtractResult}
    (h : extract_inner_svg root = some res) :
    computeViewBox root = some res.viewBox := by
  unfold extract_inner_svg at h
  split at h
  · cases hvb : computeViewBox root with
    | none => rw [hvb] at h; simp at h
    | some vb =>
      rw [hvb] at h
      simp only at h
      split at h
      · simp at h
      · rw [← Option.some.inj h]
  · simp at h

lemma extract_none_of_no_viewBox {root : XElem}
    (h : computeViewBox root = none) : extract_inner_svg root = none := by
  unfold extract_inner_svg
  split
  · rw [h]
  · rfl

lemma computeViewBox_attr {root : XElem} {v : String}
    (hv : attrGet root "viewBox" = some v) (hne : v ≠ "") :
    computeViewBox root = some v := by
  unfold computeViewBox
  rw [hv]
  simp [truthy, hne]

lemma computeViewBox_wh {root : XElem} {w h : String}
    (hvb : truthy (attrGet root "viewBox") = false)
    (hw : attrGet root "width" = some w) (hwne : w ≠ "")
    (hh : attrGet root "height" = some h) (hhne : h ≠ "") :
    computeViewBox root
      = some ("0 0 " ++ stripNonNumeric w ++ " " ++ stripNonNumeric h) := by
  unfold computeViewBox
  simp only [hvb, Bool.false_eq_true, if_false]
  simp [hw, hh, truthy, hwne, hhne]

lemma computeViewBox_none {root : XElem}
    (hvb : truthy (attrGet root "viewBox") = false)
    (hwh : (truthy (attrGet root "width")
      && truthy (attrGet root "height")) = false) :
    computeViewBox root = none := by
  unfold computeViewBox
  simp only [hvb, Bool.false_eq_true, if_false, hwh]

/-- C3 (amended).  When extraction succeeds on a root with a non-empty
`viewBox` attribute, the returned bounding box is that attribute value
unchanged.  Without a truthy `viewBox` but with non-empty `width` and
`height` attribute values, successful extraction returns
`"0 0 W H"` where `W`, `H` are the attribute values with every character
other than digits, `.` and `-` removed.  With neither a truthy `viewBox`
nor truthy `width` and `height`, extraction returns `none`. -/
theorem extract_viewBox_amended (root : XElem) :
    (∀ v res, attrGet root "viewBox" = some v → v ≠ "" →
      extract_inner_svg root = some res → res.viewBox = v)
  ∧ (∀ w h res, truthy (attrGet root "viewBox") = false →
      attrGet root "width" = some w → w ≠ "" →
      attrGet root "height" = some h → h ≠ "" →
      extract_inner_svg root = some res →
      res.viewBox = "0 0 " ++ stripNonNumeric w ++ " " ++ stripNonNumeric h)
  ∧ (truthy (attrGet root "viewBox") = false →
      (truthy (attrGet root "width")
        && truthy (attrGet root "height")) = false →
      extract_inner_svg root = none) := by
  refine ⟨?_, ?_, ?_⟩
  · intro v res hv hne hx
    have h1 := computeViewBox_of_extract hx
    have h2 := computeViewBox_attr hv hne
    rw [h1] at h2
    exact Option.some.inj h2
  · intro w h res hvb hw hwne hh hhne hx
    have h1 := computeViewBox_of_extract hx
    have h2 := computeViewBox_wh hvb hw hwne hh hhne
    rw [h1] at h2
    exact Option.some.inj h2
  · intro hvb hwh
    exact extract_none_of_no_viewBox (computeViewBox_none hvb hwh)

/-- Closed instance of `extract_viewBox_amended`: a root carrying
`viewBox="0 0 10 20"` yields exactly that bounding box. -/
theorem extract_viewBox_amended_witness :
    (ExtractResult.mk "0 0 10 20" "<g/>").viewBox = "0 0 10 20" := by
  refine (extract_viewBox_amended
    (.mk "svg" [("viewBox", "0 0 10 20")] "" [.mk "g" [] "" [] ""] "")).1
    "0 0 10 20" ⟨"0 0 10 20", "<g/>"⟩ (by decide) (by decide) ?_
  simp [extract_inner_svg, computeViewBox, localName, attrGet, truthy,
    serializeList, serialize, serializeAttrs, XElem.tag, XElem.attrs,
    XElem.children, pyStrip]

/-- C3 counterexample: with `width="100px"` and `height="50px"` the code
strips the units and returns `"0 0 100 50"`, not the attribute values
verbatim as the claim states (`"0 0 100px 50px"`). -/
theorem extract_viewBox_claim_counterexample :
    attrGet (.mk "svg" [("width", "100px"), ("height", "50px")] ""
      [.mk "g" [] "" [] ""] "") "viewBox" = none
  ∧ attrGet (.mk "svg" [("width", "100px"), ("height", "50px")] ""
      [.mk "g" [] "" [] ""] "") "width" = some "100px"
  ∧ attrGet (.mk "svg" [("width", "100px"), ("height", "50px")] ""
      [.mk "g" [] "" [] ""] "") "height" = some "50px"
  ∧ extract_inner_svg (.mk "svg" [("width", "100px"), ("height", "50px")]
      "" [.mk "g" [] "" [] ""] "") = some ⟨"0 0 100 50", "<g/>"⟩
  ∧ "0 0 100 50" ≠ "0 0 " ++ "100px" ++ " " ++ "50px" := by
  refine ⟨by decide, by decide, by decide, ?_, by decide⟩
  simp [extract_inner_svg, computeViewBox, localName, attrGet, truthy,
    stripNonNumeric, serializeList, serialize, serializeAttrs, XElem.tag,
    XElem.attrs, XElem.children, pyStrip]

/-- C7.  A parsed file whose root has no child elements — or whose
serialized children concatenate and strip to the empty string — fails
extraction. -/
theorem extract_fails_empty_children (root : XElem)
    (h : root.children = [] ∨ pyStrip (serializeList root.children) = "") :
    extract_inner_svg root = none := by
  have hin : pyStrip (serializeList root.children) = "" := by
    rcases h with h | h
    · rw [h]; simp [serializeList, pyStrip]
    · exact h
  unfold extract_inner_svg
  split
  · cases hvb : computeViewBox root with
    | none => rfl
    | some vb =>
      simp only
      rw [if_pos hin]
  · rfl

/-- Closed instance of `extract_fails_empty_children`: a childless root
with a perfectly good `viewBox` still extracts to `none`. -/
theorem extract_fails_empty_children_witness :
    extract_inner_svg (.mk "svg" [("viewBox", "0 0 1 1")] "" [] "")
      = none :=
  extract_fails_empty_children _ (Or.inl rfl)

/-! ### Downloader lemmas -/

lemma dlGo_succ (resp : Nat → Resp) (fuel attempt : Nat)
    (waits : List Nat) :
    dlGo resp (fuel + 1) attempt waits
      = match resp attempt with
        | .http code body =>
          if code = 200 then ⟨attempt, waits, some body, true⟩
          else if retryable code then
            dlGo resp fuel (attempt + 1) (waits ++ [attempt])
          else if code = 403 then ⟨attempt, waits, none, false⟩
          else ⟨attempt, waits, none, false⟩
        | .netErr => dlGo resp fuel (attempt + 1) (waits ++ [attempt]) :=
  rfl

lemma dlGo_attempts_le (resp : Nat → Resp) :
    ∀ fuel attempt waits,
      (dlGo resp fuel attempt waits).attempts ≤ attempt + fuel - 1 := by
  intro fuel
  induction fuel with
  | zero => intro attempt waits; simp [dlGo]
  | succ fuel ih =>
    intro attempt waits
    rw [dlGo_succ]
    cases resp attempt with
    | netErr =>
      exact le_trans (ih _ _) (by omega)
    | http code body =>
      dsimp only
      by_cases h200 : code = 200
      · rw [if_pos h200]; dsimp only; omega
      · rw [if_neg h200]
        by_cases hr : retryable code = true
        · rw [if_pos hr]
          exact le_trans (ih _ _) (by omega)
        · rw [if_neg hr]
          by_cases h403 : code = 403
          · rw [if_pos h403]; dsimp only; omega
          · rw [if_neg h403]; dsimp only; omega

lemma dlGo_retry_step (resp : Nat → Resp) (fuel attempt : Nat)
    (waits : List Nat) (code : Nat) (body : String)
    (h : resp attempt = .http code body) (h200 : code ≠ 200)
    (hr : retryable code = true) :
    dlGo resp (fuel + 1) attempt waits
      = dlGo resp fuel (attempt + 1) (waits ++ [attempt]) := by
  rw [dlGo_succ, h]
  dsimp only
  rw [if_neg h200, if_pos hr]

lemma dlGo_neterr_step (resp : Nat → Resp) (fuel attempt : Nat)
    (waits : List Nat) (h : resp attempt = .netErr) :
    dlGo resp (fuel + 1) attempt waits
      = dlGo resp fuel (attempt + 1) (waits ++ [attempt]) := by
  rw [dlGo_succ, h]

lemma dlGo_200 (resp : Nat → Resp) (fuel attempt : Nat)
    (waits : List Nat) (body : String)
    (h : resp attempt = .http 200 body) :
    dlGo resp (fuel + 1) attempt waits
      = ⟨attempt, waits, some body, true⟩ := by
  rw [dlGo_succ, h]
  dsimp only
  rw [if_pos rfl]

lemma dlGo_fatal (resp : Nat → Resp) (fuel attempt : Nat)
    (waits : List Nat) (code : Nat) (body : String)
    (h : resp attempt = .http code body) (h200 : code ≠ 200)
    (hr : retryable code = false) :
    dlGo resp (fuel + 1) attempt waits
      = ⟨attempt, waits, none, false⟩ := by
  rw [dlGo_succ, h]
  dsimp only
  rw [if_neg h200, if_neg (by rw [hr]; exact Bool.false_ne_true)]
  by_cases h403 : code = 403
  · rw [if_pos h403]
  · rw [if_neg h403]

/-- C4.  `download_svg` makes at most 4 GET attempts; a 200 on any
attempt with fuel left writes the body and returns success there; a 403
or any other non-retryable status on any attempt fails at once; a
retryable status (429/500/502/503/504) or a network exception on attempt
`i` sleeps `i` seconds and moves to attempt `i + 1`; four consecutive
retryable outcomes exhaust the attempts and return failure with backoffs
1, 2, 3, 4; and end to end, retryable outcomes before a 200 on attempt
`k` of at most 4 yield success with the body written and backoffs up to
`k - 1`. -/
theorem download_retry_policy (resp : Nat → Resp) :
    ((download_svg resp).attempts ≤ 4)
  ∧ (∀ fuel attempt waits body, resp attempt = .http 200 body →
      dlGo resp (fuel + 1) attempt waits
        = ⟨attempt, waits, some body, true⟩)
  ∧ (∀ fuel attempt waits body, resp attempt = .http 403 body →
      dlGo resp (fuel + 1) attempt waits
        = ⟨attempt, waits, none, false⟩)
  ∧ (∀ fuel attempt waits code body, resp attempt = .http code body →
      code ≠ 200 → retryable code = false →
      dlGo resp (fuel + 1) attempt waits
        = ⟨attempt, waits, none, false⟩)
  ∧ (∀ fuel attempt waits code body, resp attempt = .http code body →
      code ≠ 200 → retryable code = true →
      dlGo resp (fuel + 1) attempt waits
        = dlGo resp fuel (attempt + 1) (waits ++ [attempt]))
  ∧ (∀ fuel attempt waits, resp attempt = .netErr →
      dlGo resp (fuel + 1) attempt waits
        = dlGo resp fuel (attempt + 1) (waits ++ [attempt]))
  ∧ ((∀ i, 1 ≤ i → i ≤ 4 →
        (∃ c b, resp i = .http c b ∧ c ≠ 200 ∧ retryable c = true)
          ∨ resp i = .netErr) →
      download_svg resp = ⟨4, [1, 2, 3, 4], none, false⟩)
  ∧ (∀ k body, 1 ≤ k → k ≤ 4 →
      (∀ i, 1 ≤ i → i < k →
        (∃ c b, resp i = .http c b ∧ c ≠ 200 ∧ retryable c = true)
          ∨ resp i = .netErr) →
      resp k = .http 200 body →
      download_svg resp
        = ⟨k, (List.range (k - 1)).map (· + 1), some body, true⟩) := by
  refine ⟨?_, ?_, ?_, ?_, ?_, ?_, ?_, ?_⟩
  · exact le_trans (dlGo_attempts_le resp 4 1 []) (by omega)
  · exact fun fuel attempt waits body h =>
      dlGo_200 resp fuel attempt waits body h
  · exact fun fuel attempt waits body h =>
      dlGo_fatal resp fuel attempt waits 403 body h (by omega) (by decide)
  · exact fun fuel attempt waits code body h h200 hr =>
      dlGo_fatal resp fuel attempt waits code body h h200 hr
  · exact fun fuel attempt waits code body h h200 hr =>
      dlGo_retry_step resp fuel attempt waits code body h h200 hr
  · exact fun fuel attempt waits h =>
      dlGo_neterr_step resp fuel attempt waits h
  · intro h
    have step : ∀ fuel attempt waits, 1 ≤ attempt → attempt ≤ 4 →
        dlGo resp (fuel + 1) attempt waits
          = dlGo resp fuel (attempt + 1) (waits ++ [attempt]) := by
      intro fuel attempt waits h1 h4
      rcases h attempt h1 h4 with ⟨c, b, hcb, hc200, hcr⟩ | hne
      · exact dlGo_retry_step resp fuel attempt waits c b hcb hc200 hcr
      · exact dlGo_neterr_step resp fuel attempt waits hne
    calc download_svg resp = dlGo resp 4 1 [] := rfl
      _ = dlGo resp 3 2 ([] ++ [1]) := step 3 1 [] (by omega) (by omega)
      _ = dlGo resp 2 3 (([] ++ [1]) ++ [2]) := step 2 2 _ (by omega) (by omega)
      _ = dlGo resp 1 4 ((([] ++ [1]) ++ [2]) ++ [3]) :=
          step 1 3 _ (by omega) (by omega)
      _ = dlGo resp 0 5 (((([] ++ [1]) ++ [2]) ++ [3]) ++ [4]) :=
          step 0 4 _ (by omega) (by omega)
      _ = ⟨4, [1, 2, 3, 4], none, false⟩ := by simp [dlGo]
  · intro k body hk1 hk4 hpre h200
    have step : ∀ fuel attempt waits, 1 ≤ attempt → attempt < k →
        dlGo resp (fuel + 1) attempt waits
          = dlGo resp fuel (attempt + 1) (waits ++ [attempt]) := by
      intro fuel attempt waits h1 h4
      rcases hpre attempt h1 h4 with ⟨c, b, hcb, hc200, hcr⟩ | hne
      · exact dlGo_retry_step resp fuel attempt waits c b hcb hc200 hcr
      · exact dlGo_neterr_step resp fuel attempt waits hne
    interval_cases k
    · calc download_svg resp = dlGo resp (3 + 1) 1 [] := rfl
        _ = ⟨1, [], some body, true⟩ := dlGo_200 resp 3 1 [] body h200
        _ = ⟨1, (List.range (1 - 1)).map (· + 1), some body, true⟩ := by
            simp
    · calc download_svg resp = dlGo resp (3 + 1) 1 [] := rfl
        _ = dlGo resp 3 2 ([] ++ [1]) := step 3 1 [] (by omega) (by omega)
        _ = ⟨2, [] ++ [1], some body, true⟩ :=
            dlGo_200 resp 2 2 ([] ++ [1]) body h200
        _ = ⟨2, (List.range (2 - 1)).map (· + 1), some body, true⟩ := by
            simp [List.range_succ]
    · calc download_svg resp = dlGo resp (3 + 1) 1 [] := rfl
        _ = dlGo resp 3 2 ([] ++ [1]) := step 3 1 [] (by omega) (by omega)
        _ = dlGo resp 2 3 (([] ++ [1]) ++ [2]) :=
            step 2 2 _ (by omega) (by omega)
        _ = ⟨3, ([] ++ [1]) ++ [2], some body, true⟩ :=
            dlGo_200 resp 1 3 (([] ++ [1]) ++ [2]) body h200
        _ = ⟨3, (List.range (3 - 1)).map (· + 1), some body, true⟩ := by
            simp [List.range_succ]
    · calc download_svg resp = dlGo resp (3 + 1) 1 [] := rfl
        _ = dlGo resp 3 2 ([] ++ [1]) := step 3 1 [] (by omega) (by omega)
        _ = dlGo resp 2 3 (([] ++ [1]) ++ [2]) :=
            step 2 2 _ (by omega) (by omega)
        _ = dlGo resp 1 4 ((([] ++ [1]) ++ [2]) ++ [3]) :=
            step 1 3 _ (by omega) (by omega)
        _ = ⟨4, (([] ++ [1]) ++ [2]) ++ [3], some body, true⟩ :=
            dlGo_200 resp 0 4 ((([] ++ [1]) ++ [2]) ++ [3]) body h200
        _ = ⟨4, (List.range (4 - 1)).map (· + 1), some body, true⟩ := by
            simp [List.range_succ]

/-- Closed instance of `download_retry_policy`: a 503, then a network
error, then a 200 on attempt 3 succeeds with the body written and
backoffs 1 and 2. -/
theorem download_retry_policy_witness :
    download_svg (fun i => if i = 1 then Resp.http 503 "E"
      else if i = 2 then Resp.netErr else Resp.http 200 "BODY")
      = ⟨3, (List.range (3 - 1)).map (· + 1), some "BODY", true⟩ :=
  (download_retry_policy (fun i => if i = 1 then Resp.http 503 "E"
      else if i = 2 then Resp.netErr else Resp.http 200 "BODY")).2.2.2.2.2.2.2
    3 "BODY" (by omega) (by omega)
    (by
      intro i h1 hi
      match i, h1, hi with
      | 1, _, _ => exact Or.inl ⟨503, "E", rfl, by omega, by decide⟩
      | 2, _, _ => exact Or.inr rfl)
    rfl

/-! ### Identifier derivation -/

set_option maxRecDepth 100000 in
set_option maxHeartbeats 16000000 in
/-- C5.  The output record's identifier is `countryId` of the entity name
— a pure function of it — and `countryId` is injective on the static
country list: the 193 derived identifiers are pairwise distinct. -/
theorem country_ids_deterministic_injective :
    (∀ country viewBox inner pageurl safe,
      (mkItem country viewBox inner pageurl safe).id = countryId country)
  ∧ (UN_COUNTRIES.map countryId).Nodup := by
  refine ⟨fun _ _ _ _ _ => rfl, ?_⟩
  decide

/-! ### Cache hit behaviour -/

/-- C6.  When the destination file for a resolved hit already exists with
non-empty content, the per-country pipeline performs no download call:
the filesystem is untouched, `downloadAttempted` is `false`, and the
outcome is exactly the extraction of the cached content. -/
theorem cache_hit_skips_download (parse : String → Option XElem)
    (resp : Nat → Resp) (hit : Hit) (country : String)
    (fs : String → Option String) (content : String)
    (hc : fs (destPath (sanitize_filename hit.title)) = some content)
    (hne : content ≠ "") :
    (processCountry parse resp (some hit) country fs).downloadAttempted
        = false
  ∧ (processCountry parse resp (some hit) country fs).fs = fs
  ∧ (processCountry parse resp (some hit) country fs).result
      = (match parse content with
         | none => .parseFailed
         | some root =>
           match extract_inner_svg root with
           | none => .parseFailed
           | some p => .ok (mkItem country p.viewBox p.inner hit.pageurl
               (sanitize_filename hit.title))) := by
  have hcache : processCountry parse resp (some hit) country fs
      = extractStage parse hit country fs false := by
    unfold processCountry
    simp only [hc]
    rw [if_pos (by simp [hne])]
  rw [hcache]
  unfold extractStage
  simp only [hc]
  cases parse content with
  | none => exact ⟨rfl, rfl, rfl⟩
  | some root =>
    simp only
    cases extract_inner_svg root with
    | none => exact ⟨rfl, rfl, rfl⟩
    | some p => exact ⟨rfl, rfl, rfl⟩

/-- Closed instance of `cache_hit_skips_download` at a concrete cached
file whose parse fails. -/
theorem cache_hit_skips_download_witness :
    (processCountry (fun _ => none) (fun _ => Resp.netErr)
      (some ⟨"Coat.svg", none, "u"⟩) "X"
      (fun p => if p = destPath (sanitize_filename "Coat.svg")
        then some "<svg/>" else none)).downloadAttempted = false
  ∧ (processCountry (fun _ => none) (fun _ => Resp.netErr)
      (some ⟨"Coat.svg", none, "u"⟩) "X"
      (fun p => if p = destPath (sanitize_filename "Coat.svg")
        then some "<svg/>" else none)).fs
      = (fun p => if p = destPath (sanitize_filename "Coat.svg")
        then some "<svg/>" else none)
  ∧ (processCountry (fun _ => none) (fun _ => Resp.netErr)
      (some ⟨"Coat.svg", none, "u"⟩) "X"
      (fun p => if p = destPath (sanitize_filename "Coat.svg")
        then some "<svg/>" else none)).result
      = (match (fun (_ : String) => (none : Option XElem)) "<svg/>" with
         | none => .parseFailed
         | some root =>
           match extract_inner_svg root with
           | none => .parseFailed
           | some p => .ok (mkItem "X" p.viewBox p.inner none
               (sanitize_filename "Coat.svg"))) :=
  cache_hit_skips_download (fun _ => none) (fun _ => Resp.netErr)
    ⟨"Coat.svg", none, "u"⟩ "X"
    (fun p => if p = destPath (sanitize_filename "Coat.svg")
      then some "<svg/>" else none)
    "<svg/>" (by simp) (by decide)

/-! ### Filename sanitization -/

/-- C10.  `sanitize_filename` keeps the length, outputs only ASCII
letters, digits, underscore, dot and hyphen, preserves characters of
that class in place and replaces every other character by an
underscore. -/
theorem sanitize_filename_charwise (name : String) :
    ((sanitize_filename name).length = name.length)
  ∧ (∀ c ∈ (sanitize_filename name).data,
      ('A' ≤ c ∧ c ≤ 'Z') ∨ ('a' ≤ c ∧ c ≤ 'z') ∨ ('0' ≤ c ∧ c ≤ '9')
        ∨ c = '_' ∨ c = '.' ∨ c = '-')
  ∧ (∀ i : Nat, (sanitize_filename name).data[i]?
      = (name.data[i]?).map fun c => if okChar c then c else '_') := by
  refine ⟨?_, ?_, ?_⟩
  · show (name.data.map fun c => if okChar c then c else '_').length
      = name.data.length
    exact List.length_map _ _
  · intro c hc
    simp only [sanitize_filename] at hc
    rcases List.mem_map.mp hc with ⟨a, _, rfl⟩
    by_cases h : okChar a
    · rw [if_pos h]
      simp only [okChar, Bool.or_eq_true, Bool.and_eq_true,
        decide_eq_true_eq, beq_iff_eq] at h
      tauto
    · rw [if_neg h]
      right; right; right; left; rfl
  · intro i
    show ((name.data.map fun c => if okChar c then c else '_')[i]?
      = (name.data[i]?).map fun c => if okChar c then c else '_')
    exact List.getElem?_map ..

/-- Closed instance of `sanitize_filename_charwise`: the character that
replaces the space of `"A b"` is in the safe class, and position 1 holds
exactly the image of the original character. -/
theorem sanitize_filename_charwise_witness :
    (('A' ≤ '_' ∧ '_' ≤ 'Z') ∨ ('a' ≤ '_' ∧ '_' ≤ 'z')
        ∨ ('0' ≤ '_' ∧ '_' ≤ '9') ∨ '_' = '_' ∨ '_' = '.' ∨ '_' = '-')
  ∧ ((sanitize_filename "A b").data[1]?
      = (("A b").data[1]?).map fun c => if okChar c then c else '_') :=
  ⟨(sanitize_filename_charwise "A b").2.1 '_' (by decide),
   (sanitize_filename_charwise "A b").2.2 1⟩

end FetchEmblems
